import Mathlib

/-!
Verification of the streaming delivery pipeline of wopr-plugin-slack.

Shallow embedding of the TypeScript sources:
  * the stream update/finalize helpers and chunk handler of the message
    handler module (`updateMessage`, `finalizeMessage`, `handleChunk`,
    and the post-inject completion block of `handleMessage`);
  * the retry executor (`withRetry`, `isRateLimitError`,
    `isTransientError`, `calculateDelay` in src/retry.ts);
  * the typing indicator registry (`startTyping`, `stopTyping`,
    `tickTyping`, `stopAllTyping` in src/typing.ts).

JavaScript strings are modelled as `List Char` (their sequence of code
units), numbers used as millisecond timestamps as `Nat`, and fractional
delays (backoff with jitter) as `ℚ`.  The Slack Web API is modelled as a
pure effect log: each helper records the text of every `chat.update`
call it issues.
-/

namespace WoprSlack

/-- Maximum characters Slack accepts per message (`SLACK_LIMIT`). -/
def SLACK_LIMIT : Nat := 4000

/-- Buffer length at which an intermediate edit is flushed (`EDIT_THRESHOLD`). -/
def EDIT_THRESHOLD : Nat := 1500

/-- Idle gap (ms) after which the buffer is flushed and cleared (`IDLE_SPLIT_MS`). -/
def IDLE_SPLIT_MS : Nat := 1000

/-- Quiet period (ms) of the debounced finalize timer (`setTimeout(..., 2000)`). -/
def FINALIZE_DEBOUNCE_MS : Nat := 2000

/-- The ellipsis marker appended on truncation (`"..."`). -/
def ellipsis : List Char := ['.', '.', '.']

/-- The truncation applied by both `updateMessage` and `finalizeMessage`:
`if (text.length > SLACK_LIMIT) text = text.substring(0, SLACK_LIMIT - 3) + "..."`. -/
def truncateForSlack (text : List Char) : List Char :=
  if SLACK_LIMIT < text.length then text.take (SLACK_LIMIT - 3) ++ ellipsis else text

/-- `StreamState` of the message handler module: one active streaming session. -/
structure StreamState where
  channelId : List Char
  threadTs : Option (List Char)
  messageTs : List Char
  buffer : List Char
  lastEdit : Nat
  isFinalized : Bool
  deriving DecidableEq, Repr

/-- Outcome of one call to `updateMessage` / `finalizeMessage`: the state after
the call, the text passed to `chat.update` (none if no API call was made), and
whether the helper re-threw the edit failure to its caller. -/
structure EditResult where
  state : StreamState
  issued : Option (List Char)
  threwToCaller : Bool
  deriving DecidableEq, Repr

/-- `updateMessage(state, content, deps)`: no-op when the app is absent or the
session is finalized; otherwise truncates and issues `chat.update`.  `editOk`
is the ultimate outcome of the retried API call; on success `lastEdit` is set
to `now`, on failure the error is caught and only logged. -/
def updateMessage (appPresent : Bool) (state : StreamState) (content : List Char)
    (editOk : Bool) (now : Nat) : EditResult :=
  if !appPresent || state.isFinalized then ⟨state, none, false⟩
  else
    let text := truncateForSlack content
    if editOk then ⟨{ state with lastEdit := now }, some text, false⟩
    else ⟨state, some text, false⟩

/-- `finalizeMessage(state, content, deps)`: no-op when the app is absent or the
session is already finalized; otherwise sets `isFinalized := true` *before*
attempting the final `chat.update`, truncates, and issues the edit.  A failure
of the retried call is caught and logged, never re-thrown (`threwToCaller` is
false on every path). -/
def finalizeMessage (appPresent : Bool) (state : StreamState) (content : List Char)
    (editOk : Bool) : EditResult :=
  if !appPresent || state.isFinalized then ⟨state, none, false⟩
  else
    let state := { state with isFinalized := true }
    let text := truncateForSlack content
    if editOk then ⟨state, some text, false⟩
    else ⟨state, some text, false⟩

/-!  ## Chunk stream model

`handleChunk` (the closure created in `handleMessage`) and the post-inject
completion block.  A producer chunk (`StreamMessage`) is either a plain text
chunk, an assistant message whose content is an array of parts or a string,
or some other payload from which no text is extracted.
-/

/-- One element of an assistant message's content array; `c.text || ""`
extracts `none`/empty as the empty string. -/
abbrev ContentPart : Type := Option (List Char)

/-- The `message.content` of an assistant chunk: an array of parts, a plain
string, or some other shape (ignored by the extractor). -/
inductive AssistantContent where
  | parts (l : List ContentPart)
  | str (s : List Char)
  | otherShape
  deriving DecidableEq

/-- A chunk delivered to `handleChunk`. -/
inductive StreamMessage where
  | text (content : Option (List Char))
  | assistant (content : Option AssistantContent)
  | otherType
  deriving DecidableEq

/-- The text `handleChunk` extracts from a chunk: `msg.content` for truthy
text chunks, the join of `c.text || ""` over an assistant content array, the
content itself when it is a string, and `""` otherwise. -/
def extractText : StreamMessage → List Char
  | .text content => content.getD []
  | .assistant none => []
  | .assistant (some (.parts l)) => (l.map (fun c => (c : Option (List Char)).getD [])).flatten
  | .assistant (some (.str s)) => s
  | .assistant (some .otherShape) => []
  | .otherType => []

/-- Whether an edit came from `updateMessage` or `finalizeMessage`. -/
inductive EditKind where
  | update
  | final
  deriving DecidableEq, Repr

/-- The state of one `handleMessage` streaming run: the shared `streamState`,
the closure-local `buffer` and `lastFlush`, the time the debounced finalize
timer was last armed (none when unarmed or cleared), whether `stopTyping`
has been called for the session key, and the log of issued edits. -/
structure ChunkRun where
  st : StreamState
  buffer : List Char
  lastFlush : Nat
  timerSetAt : Option Nat
  typingStopped : Bool
  edits : List (EditKind × List Char)
  deriving DecidableEq, Repr

/-- Append an issued edit (if any) to the log. -/
def recordEdit (edits : List (EditKind × List Char)) (k : EditKind) :
    Option (List Char) → List (EditKind × List Char)
  | some t => edits ++ [(k, t)]
  | none => edits

/-- The debounced finalize timer: armed for `FINALIZE_DEBOUNCE_MS` after each
non-empty chunk; when it fires (single-threaded, before the next event at time
`now`), it runs `if (buffer.length > 0 && !streamState.isFinalized)
finalizeMessage(streamState, buffer, deps)`. -/
def fireTimerIfDue (r : ChunkRun) (now : Nat) : ChunkRun :=
  match r.timerSetAt with
  | none => r
  | some t0 =>
    if t0 + FINALIZE_DEBOUNCE_MS < now then
      let r := { r with timerSetAt := none }
      if 0 < r.buffer.length ∧ r.st.isFinalized = false then
        let er := finalizeMessage true r.st r.buffer true
        { r with st := er.state, edits := recordEdit r.edits .final er.issued }
      else r
    else r

/-- `handleChunk(msg)` at time `now`: return early when finalized or the
extracted text is empty; otherwise stop typing, append to the buffer, flush
and clear on an idle gap (`now - lastFlush > IDLE_SPLIT_MS`), set
`lastFlush := now`, flush without clearing at `EDIT_THRESHOLD`, and re-arm the
finalize timer. -/
def handleChunk (r : ChunkRun) (msg : StreamMessage) (now : Nat) : ChunkRun :=
  if r.st.isFinalized then r
  else
    let textContent := extractText msg
    if textContent = [] then r
    else
      let r := { r with typingStopped := true }
      let buf := r.buffer ++ textContent
      let r :=
        if IDLE_SPLIT_MS < now - r.lastFlush ∧ 0 < buf.length then
          let er := updateMessage true r.st buf true now
          { r with st := er.state, edits := recordEdit r.edits .update er.issued,
                   buffer := [] }
        else { r with buffer := buf }
      let r := { r with lastFlush := now }
      let r :=
        if EDIT_THRESHOLD ≤ r.buffer.length then
          let er := updateMessage true r.st r.buffer true now
          { r with st := er.state, edits := recordEdit r.edits .update er.issued }
        else r
      { r with timerSetAt := some now }

/-- One event-loop step: any due finalize timer fires before the chunk
handler for the chunk arriving at `now` runs. -/
def processChunk (r : ChunkRun) (c : StreamMessage × Nat) : ChunkRun :=
  handleChunk (fireTimerIfDue r c.2) c.1 c.2

/-- Deliver a timed sequence of chunks to the session. -/
def runChunks (r : ChunkRun) (chunks : List (StreamMessage × Nat)) : ChunkRun :=
  chunks.foldl processChunk r

/-- The post-inject completion block of `handleMessage` at time `now`: a due
finalize timer fires first (during the await), then `stopTyping`, then
`clearTimeout(finalizeTimer)`, then if not finalized the session is finalized
with `buffer || response`. -/
def completeRun (r : ChunkRun) (response : List Char) (now : Nat) : ChunkRun :=
  let r := fireTimerIfDue r now
  let r := { r with typingStopped := true }
  let r := { r with timerSetAt := none }
  if r.st.isFinalized then r
  else
    let finalText := if r.buffer = [] then response else r.buffer
    let er := finalizeMessage true r.st finalText true
    { r with st := er.state, edits := recordEdit r.edits .final er.issued }

/-- The `streamState` created by `handleMessage` once the placeholder's
timestamp is known. -/
def initialStreamState (channelId messageTs : List Char)
    (threadTs : Option (List Char)) : StreamState :=
  { channelId := channelId, threadTs := threadTs, messageTs := messageTs,
    buffer := [], lastEdit := 0, isFinalized := false }

/-- The run state right after the placeholder is posted and typing started:
`buffer = ""`, `lastFlush = Date.now()` (the session start time), no timer
armed, no edits issued, typing not yet stopped. -/
def initialRun (startTime : Nat) : ChunkRun :=
  { st := initialStreamState [] [] none, buffer := [], lastFlush := startTime,
    timerSetAt := none, typingStopped := false, edits := [] }

/-- Concatenation of the extracted texts of a timed chunk sequence. -/
def concatExtract (chunks : List (StreamMessage × Nat)) : List Char :=
  (chunks.map (fun c => extractText c.1)).flatten

/-- Arrival times advance and consecutive gaps (from `prev`) stay within
`IDLE_SPLIT_MS`. -/
def gapsOk : Nat → List Nat → Bool
  | _, [] => true
  | prev, t :: ts => decide (prev ≤ t) && decide (t - prev ≤ IDLE_SPLIT_MS) && gapsOk t ts

/-- `!messageContent.trim()`: the incoming content is empty after trimming. -/
def jsTrimEmpty (s : List Char) : Bool :=
  s.all (fun c => c.isWhitespace)

/-- Observable outcome of a whole `handleMessage` run: the final run state and
whether `chat.delete` was issued on the placeholder. -/
structure RunOutcome where
  run : ChunkRun
  deleted : Bool
  deriving DecidableEq, Repr

/-- The streaming part of `handleMessage`, after the placeholder is posted and
typing is started: when the incoming message content trims to empty the
placeholder is deleted and the handler returns (no `stopTyping`, no edits);
otherwise `ctx.inject` streams `chunks`, returns `response` at `endTime`, and
the completion block runs. -/
def handleMessageRun (messageContent : List Char)
    (chunks : List (StreamMessage × Nat)) (response : List Char)
    (startTime endTime : Nat) : RunOutcome :=
  if jsTrimEmpty messageContent then
    { run := initialRun startTime, deleted := true }
  else
    { run := completeRun (runChunks (initialRun startTime) chunks) response endTime,
      deleted := false }

/-- The property claimed of the final visible text: it is the full
concatenation of the chunk texts, or a truncated-with-ellipsis initial
segment of it within the platform cap. -/
def FinalTextOk (final concat : List Char) : Prop :=
  final = concat ∨
    ∃ p rest, p ++ rest = concat ∧ final = p ++ ellipsis ∧ final.length ≤ SLACK_LIMIT

/-!  ## Retry executor (src/retry.ts) -/

/-- `DEFAULT_MAX_RETRIES`. -/
def DEFAULT_MAX_RETRIES : Nat := 3

/-- `DEFAULT_BASE_DELAY` (ms). -/
def DEFAULT_BASE_DELAY : ℚ := 1000

/-- `DEFAULT_MAX_DELAY` (ms). -/
def DEFAULT_MAX_DELAY : ℚ := 30000

/-- The fields of a thrown error that the retry module inspects.  `code` is
the error's `code` property when it is a string; `statusCode` / `status` when
numbers; `retryAfter` (seconds) when a number; `headerRetryAfter` the
`retry-after` header parsed to a number (none when absent or NaN). -/
structure SlackError where
  code : Option String
  statusCode : Option Nat
  status : Option Nat
  retryAfter : Option Nat
  headerRetryAfter : Option Nat
  deriving DecidableEq, Repr

/-- `isRateLimitError`: `some hint` when the error is a Slack rate-limit error
(code `slack_webapi_rate_limited_error`, or HTTP status 429), carrying the
optional retry-after hint in seconds; `none` otherwise. -/
def isRateLimitError (e : SlackError) : Option (Option Nat) :=
  if e.code = some "slack_webapi_rate_limited_error" then
    some e.retryAfter
  else if e.statusCode = some 429 ∨ e.status = some 429 then
    some (match e.retryAfter with
      | some n => some n
      | none => e.headerRetryAfter)
  else
    none

/-- `isTransientError`: rate-limit errors, the listed network error codes, and
HTTP 5xx (`statusCode ?? status`) are transient; everything else is fatal. -/
def isTransientError (e : SlackError) : Bool :=
  if (isRateLimitError e).isSome then true
  else if e.code = some "ECONNRESET" ∨ e.code = some "ECONNREFUSED" ∨
      e.code = some "ETIMEDOUT" ∨ e.code = some "ENOTFOUND" ∨
      e.code = some "EAI_AGAIN" then true
  else
    match (match e.statusCode with | some s => some s | none => e.status) with
    | some s => decide (500 ≤ s ∧ s < 600)
    | none => false

/-- `calculateDelay(attempt, baseDelay, maxDelay, retryAfterMs)`: honor a
positive server hint capped at `maxDelay`; otherwise
`min(baseDelay * 2^attempt + jitter, maxDelay)` with `jitterVal` standing for
the sampled `Math.random() * baseDelay`. -/
def calculateDelay (attempt : Nat) (baseDelay maxDelay : ℚ) (jitterVal : ℚ)
    (retryAfterMs : Option ℚ) : ℚ :=
  match retryAfterMs with
  | some r =>
    if 0 < r then min r maxDelay
    else min (baseDelay * 2 ^ attempt + jitterVal) maxDelay
  | none => min (baseDelay * 2 ^ attempt + jitterVal) maxDelay

/-- The `retryAfterMs` computed in `withRetry`'s catch block:
`rateLimit?.retryAfter ? rateLimit.retryAfter * 1000 : undefined`
(a zero hint is falsy and falls through to the exponential path). -/
def retryAfterMsOf (e : SlackError) : Option ℚ :=
  match isRateLimitError e with
  | some (some ra) => if ra ≠ 0 then some ((ra : ℚ) * 1000) else none
  | _ => none

/-- Observable trace of one `withRetry` execution: the number of calls to the
operation, the `(attempt, delay, error)` arguments passed to `onRetry` (in
order), the backoff sleeps performed, and the final outcome. -/
structure RetryTrace (α : Type) where
  calls : Nat
  observed : List (Nat × ℚ × SlackError)
  sleeps : List ℚ
  result : Except SlackError α
  deriving Repr

/-- The retry loop of `withRetry`: `fn i` is the outcome of the `i`-th call
(0-indexed); `jitter i` the random jitter sampled for attempt `i`;
`remaining` the retries still allowed (`maxRetries - attempt`).  Mirrors the
source: return on success; break once attempts are exhausted or the error is
not transient; otherwise notify `onRetry(attempt + 1, delay, error)`, sleep,
and loop. -/
def withRetryGo {α : Type} (fn : Nat → Except SlackError α)
    (baseDelay maxDelay : ℚ) (jitter : Nat → ℚ) :
    (attempt : Nat) → (remaining : Nat) → RetryTrace α
  | attempt, remaining =>
    match fn attempt with
    | .ok v => ⟨1, [], [], .ok v⟩
    | .error e =>
      match remaining with
      | 0 => ⟨1, [], [], .error e⟩
      | r + 1 =>
        if isTransientError e then
          let delay := calculateDelay attempt baseDelay maxDelay (jitter attempt)
            (retryAfterMsOf e)
          let rest := withRetryGo fn baseDelay maxDelay jitter (attempt + 1) r
          ⟨rest.calls + 1, (attempt + 1, delay, e) :: rest.observed,
            delay :: rest.sleeps, rest.result⟩
        else ⟨1, [], [], .error e⟩

/-- `withRetry(fn, options)` with the option defaults already applied. -/
def withRetry {α : Type} (fn : Nat → Except SlackError α) (maxRetries : Nat)
    (baseDelay maxDelay : ℚ) (jitter : Nat → ℚ) : RetryTrace α :=
  withRetryGo fn baseDelay maxDelay jitter 0 maxRetries

/-!  ## Typing indicator registry (src/typing.ts) -/

/-- `TYPING_REFRESH_MS`. -/
def TYPING_REFRESH_MS : Nat := 3000

/-- `TYPING_IDLE_TIMEOUT_MS`. -/
def TYPING_IDLE_TIMEOUT_MS : Nat := 30000

/-- A `TypingState` registered in `activeIndicators`.  `interval` is the
identifier of the `setInterval` handle (none once cleared). -/
structure TypingState where
  channelId : List Char
  messageTs : List Char
  interval : Option Nat
  lastActivity : Nat
  active : Bool
  frameIndex : Nat

/-- The typing module's mutable state: the `activeIndicators` map (modelled as
a function from keys), the set of interval timers that have been created and
not yet cleared, and a fresh-handle counter. -/
structure TypingWorld where
  indicators : List Char → Option TypingState
  liveTimers : List Nat
  nextTimer : Nat

/-- `stopTyping(key)`: when a state is registered for `key`, mark it inactive,
clear its interval, and delete the key; a no-op for an absent key. -/
def stopTyping (key : List Char) (w : TypingWorld) : TypingWorld :=
  match w.indicators key with
  | none => w
  | some st =>
    let live := match st.interval with
      | some t => w.liveTimers.erase t
      | none => w.liveTimers
    { indicators := fun k => if k = key then none else w.indicators k,
      liveTimers := live, nextTimer := w.nextTimer }

/-- `startTyping(key, channelId, messageTs, deps)`: first `stopTyping(key)`,
then register a fresh active state whose `interval` is a newly created timer
handle. -/
def startTyping (key channelId messageTs : List Char) (now : Nat)
    (w : TypingWorld) : TypingWorld :=
  let w := stopTyping key w
  let handle := w.nextTimer
  let st : TypingState :=
    { channelId := channelId, messageTs := messageTs, interval := some handle,
      lastActivity := now, active := true, frameIndex := 0 }
  { indicators := fun k => if k = key then some st else w.indicators k,
    liveTimers := handle :: w.liveTimers, nextTimer := w.nextTimer + 1 }

/-- `tickTyping(key)`: refresh `lastActivity` when a state exists. -/
def tickTyping (key : List Char) (now : Nat) (w : TypingWorld) : TypingWorld :=
  match w.indicators key with
  | none => w
  | some st =>
    { w with indicators := fun k =>
        if k = key then some { st with lastActivity := now } else w.indicators k }

/-- `isTyping(key)`. -/
def isTyping (key : List Char) (w : TypingWorld) : Bool :=
  (w.indicators key).isSome

/-- The empty registry (module load state). -/
def emptyTypingWorld : TypingWorld :=
  { indicators := fun _ => none, liveTimers := [], nextTimer := 0 }

/-- Well-formedness of the typing module state: created-and-uncleared timers
are distinct and below the fresh counter, every registered indicator owns a
live timer below the counter, and no two keys share a timer. -/
def TypingWF (w : TypingWorld) : Prop :=
  w.liveTimers.Nodup ∧
  (∀ t ∈ w.liveTimers, t < w.nextTimer) ∧
  (∀ k st, w.indicators k = some st →
    ∃ t, st.interval = some t ∧ t ∈ w.liveTimers ∧ t < w.nextTimer) ∧
  (∀ k1 k2 s1 s2 t, w.indicators k1 = some s1 → w.indicators k2 = some s2 →
    s1.interval = some t → s2.interval = some t → k1 = k2)

/-!  ## Theorems -/

/-- Claim C8: every string pushed by an intermediate flush (`updateMessage`)
or by `finalizeMessage` is sent unchanged when its length is at most
`SLACK_LIMIT`; beyond that, the sent text is the first `SLACK_LIMIT - 3`
characters followed by `...`, has length exactly `SLACK_LIMIT`, and ends in
`...`. -/
theorem push_truncation_rule (state : StreamState) (content : List Char)
    (editOk : Bool) (now : Nat) (hfin : state.isFinalized = false) :
    (updateMessage true state content editOk now).issued
      = some (truncateForSlack content)
    ∧ (finalizeMessage true state content editOk).issued
      = some (truncateForSlack content)
    ∧ (content.length ≤ SLACK_LIMIT → truncateForSlack content = content)
    ∧ (SLACK_LIMIT < content.length →
        (truncateForSlack content).length = SLACK_LIMIT
        ∧ truncateForSlack content = content.take (SLACK_LIMIT - 3) ++ ellipsis
        ∧ (truncateForSlack content).drop (SLACK_LIMIT - 3) = ellipsis) := by
  refine ⟨?_, ?_, ?_, ?_⟩
  · cases editOk <;> simp [updateMessage, hfin]
  · cases editOk <;> simp [finalizeMessage, hfin]
  · intro h
    simp [truncateForSlack, Nat.not_lt.mpr h]
  · intro h
    have h4 : (4000:Nat) < content.length := by simpa [SLACK_LIMIT] using h
    have htake : (content.take (SLACK_LIMIT - 3)).length = 3997 := by
      simp only [List.length_take, SLACK_LIMIT]
      omega
    have heq : truncateForSlack content = content.take (SLACK_LIMIT - 3) ++ ellipsis := by
      simp [truncateForSlack, h]
    refine ⟨?_, heq, ?_⟩
    · rw [heq, List.length_append, htake]
      decide
    · rw [heq]
      show List.drop 3997 (content.take (SLACK_LIMIT - 3) ++ ellipsis) = ellipsis
      rw [← htake, List.drop_left]

/-- Witness for C8 at a 5000-character buffer: the pushed text is exactly
4000 characters and ends in `...`. -/
theorem push_truncation_rule_witness :
    (updateMessage true (initialStreamState [] [] none) (List.replicate 5000 'a') true 0).issued
      = some (truncateForSlack (List.replicate 5000 'a'))
    ∧ (finalizeMessage true (initialStreamState [] [] none) (List.replicate 5000 'a') true).issued
      = some (truncateForSlack (List.replicate 5000 'a'))
    ∧ ((List.replicate 5000 'a').length ≤ SLACK_LIMIT →
        truncateForSlack (List.replicate 5000 'a') = List.replicate 5000 'a')
    ∧ (SLACK_LIMIT < (List.replicate 5000 'a').length →
        (truncateForSlack (List.replicate 5000 'a')).length = SLACK_LIMIT
        ∧ truncateForSlack (List.replicate 5000 'a')
            = (List.replicate 5000 'a').take (SLACK_LIMIT - 3) ++ ellipsis
        ∧ (truncateForSlack (List.replicate 5000 'a')).drop (SLACK_LIMIT - 3) = ellipsis) :=
  push_truncation_rule (initialStreamState [] [] none) (List.replicate 5000 'a') true 0 rfl

/-- Claim C7: the `isFinalized` flag is one-way and, once set, suppresses
every further edit: `updateMessage` never changes the flag, both helpers are
no-ops on a finalized session, a second `finalizeMessage` after a first one is
a no-op issuing nothing, and `updateMessage` after a finalize issues
nothing. -/
theorem finalized_one_way (app : Bool) (s : StreamState) (c1 c2 : List Char)
    (ok1 ok2 : Bool) (now now2 : Nat) :
    ((updateMessage app s c1 ok1 now).state.isFinalized = s.isFinalized)
    ∧ (s.isFinalized = true →
        (updateMessage app s c1 ok1 now).state = s
        ∧ (updateMessage app s c1 ok1 now).issued = none
        ∧ (finalizeMessage app s c1 ok1).state = s
        ∧ (finalizeMessage app s c1 ok1).issued = none)
    ∧ (s.isFinalized = true → (finalizeMessage app s c1 ok1).state.isFinalized = true)
    ∧ (app = true →
        (finalizeMessage app (finalizeMessage app s c1 ok1).state c2 ok2)
          = ⟨(finalizeMessage app s c1 ok1).state, none, false⟩
        ∧ (updateMessage app (finalizeMessage app s c1 ok1).state c2 ok2 now2).issued
          = none) := by
  rcases s with ⟨ch, th, ms, bf, le, fin⟩
  cases app <;> cases fin <;> cases ok1 <;> cases ok2 <;>
    simp [updateMessage, finalizeMessage]

/-- Witness for C7 on a finalized session and on a fresh session. -/
theorem finalized_one_way_witness :
    ((updateMessage true ⟨['C'], none, ['t'], [], 0, true⟩ ['x'] true 5).state
        = ⟨['C'], none, ['t'], [], 0, true⟩
      ∧ (updateMessage true ⟨['C'], none, ['t'], [], 0, true⟩ ['x'] true 5).issued = none
      ∧ (finalizeMessage true ⟨['C'], none, ['t'], [], 0, true⟩ ['x'] true).state
        = ⟨['C'], none, ['t'], [], 0, true⟩
      ∧ (finalizeMessage true ⟨['C'], none, ['t'], [], 0, true⟩ ['x'] true).issued = none)
    ∧ ((finalizeMessage true
          (finalizeMessage true (initialStreamState ['C'] ['t'] none) ['x'] true).state
          ['y'] false)
        = ⟨(finalizeMessage true (initialStreamState ['C'] ['t'] none) ['x'] true).state,
            none, false⟩
      ∧ (updateMessage true
          (finalizeMessage true (initialStreamState ['C'] ['t'] none) ['x'] true).state
          ['y'] false 7).issued = none) :=
  ⟨(finalized_one_way true ⟨['C'], none, ['t'], [], 0, true⟩ ['x'] ['y'] true true 5 6).2.1 rfl,
   (finalized_one_way true (initialStreamState ['C'] ['t'] none) ['x'] ['y'] true false 5 7).2.2.2 rfl⟩

/-- Claim C10: `finalizeMessage` sets `isFinalized` before attempting the
final edit, so a finalize whose retried edit ultimately fails still finalizes
the session permanently: nothing is thrown to the caller, the (failed) edit
was issued with the truncated content, and every later `updateMessage` or
`finalizeMessage` on the session is a no-op issuing no edit. -/
theorem finalize_sets_flag_before_edit (s : StreamState) (content c2 c3 : List Char)
    (ok2 ok3 : Bool) (now : Nat) (hfin : s.isFinalized = false) :
    (finalizeMessage true s content false).state.isFinalized = true
    ∧ (finalizeMessage true s content false).threwToCaller = false
    ∧ (finalizeMessage true s content false).issued = some (truncateForSlack content)
    ∧ (updateMessage true (finalizeMessage true s content false).state c2 ok2 now).issued
      = none
    ∧ (updateMessage true (finalizeMessage true s content false).state c2 ok2 now).state
      = (finalizeMessage true s content false).state
    ∧ (finalizeMessage true (finalizeMessage true s content false).state c3 ok3).issued
      = none := by
  cases ok2 <;> cases ok3 <;> simp [updateMessage, finalizeMessage, hfin]

/-- Witness for C10 on a fresh session with a failing final edit. -/
theorem finalize_sets_flag_before_edit_witness :
    (finalizeMessage true (initialStreamState ['C'] ['t'] none) ['h','i'] false).state.isFinalized = true
    ∧ (finalizeMessage true (initialStreamState ['C'] ['t'] none) ['h','i'] false).threwToCaller = false
    ∧ (finalizeMessage true (initialStreamState ['C'] ['t'] none) ['h','i'] false).issued
      = some (truncateForSlack ['h','i'])
    ∧ (updateMessage true
        (finalizeMessage true (initialStreamState ['C'] ['t'] none) ['h','i'] false).state
        ['z'] true 9).issued = none
    ∧ (updateMessage true
        (finalizeMessage true (initialStreamState ['C'] ['t'] none) ['h','i'] false).state
        ['z'] true 9).state
      = (finalizeMessage true (initialStreamState ['C'] ['t'] none) ['h','i'] false).state
    ∧ (finalizeMessage true
        (finalizeMessage true (initialStreamState ['C'] ['t'] none) ['h','i'] false).state
        ['w'] true).issued = none :=
  finalize_sets_flag_before_edit (initialStreamState ['C'] ['t'] none) ['h','i'] ['z'] ['w']
    true true 9 rfl

/-- Claim C2 (code divergence): the spec requires a finalize failure to be
surfaced to the caller, but `finalizeMessage` catches the exhausted-retries
failure of its `chat.update` and only logs it — on a session whose final edit
fails, nothing is thrown to the caller and the session is still marked
finalized. -/
theorem finalize_failure_swallowed :
    (finalizeMessage true (initialStreamState ['C'] ['t','s'] none) ['h','i'] false).threwToCaller
      = false
    ∧ (finalizeMessage true (initialStreamState ['C'] ['t','s'] none) ['h','i'] false).state.isFinalized
      = true
    ∧ (finalizeMessage true (initialStreamState ['C'] ['t','s'] none) ['h','i'] false).issued
      = some ['h','i'] := by
  decide

/-- Claim C6: absent a retry-after hint, with `baseDelay > 0`, `maxDelay ≥ 0`
and per-attempt jitter drawn from `[0, baseDelay)`, the computed delay is
nonnegative, never exceeds `maxDelay`, and is monotonically non-decreasing
across successive attempts. -/
theorem calculateDelay_monotone_bounded (baseDelay maxDelay : ℚ) (jitter : Nat → ℚ)
    (hbase : 0 < baseDelay) (hmax : 0 ≤ maxDelay)
    (hjit : ∀ n, 0 ≤ jitter n ∧ jitter n < baseDelay) (n : Nat) :
    0 ≤ calculateDelay n baseDelay maxDelay (jitter n) none
    ∧ calculateDelay n baseDelay maxDelay (jitter n) none ≤ maxDelay
    ∧ calculateDelay n baseDelay maxDelay (jitter n) none
      ≤ calculateDelay (n + 1) baseDelay maxDelay (jitter (n + 1)) none := by
  have hpow : (0:ℚ) ≤ 2 ^ n := by positivity
  refine ⟨?_, ?_, ?_⟩
  · exact le_min (add_nonneg (mul_nonneg hbase.le hpow) (hjit n).1) hmax
  · exact min_le_right _ _
  · refine min_le_min ?_ le_rfl
    have hstep : baseDelay * 2 ^ n + jitter n ≤ baseDelay * 2 ^ (n + 1) := by
      have h2 : baseDelay * 2 ^ n + jitter n ≤ baseDelay * 2 ^ n + baseDelay := by
        linarith [(hjit n).2]
      have h3 : baseDelay * 2 ^ n + baseDelay ≤ baseDelay * 2 ^ (n + 1) := by
        have hone : (1:ℚ) ≤ 2 ^ n := one_le_pow₀ (by norm_num)
        have hmul : baseDelay * 1 ≤ baseDelay * 2 ^ n :=
          mul_le_mul_of_nonneg_left hone hbase.le
        rw [mul_one] at hmul
        have hre : baseDelay * 2 ^ (n + 1) = baseDelay * 2 ^ n + baseDelay * 2 ^ n := by
          ring
        rw [hre]
        linarith
      linarith
    calc baseDelay * 2 ^ n + jitter n ≤ baseDelay * 2 ^ (n + 1) := hstep
      _ ≤ baseDelay * 2 ^ (n + 1) + jitter (n + 1) :=
          le_add_of_nonneg_right (hjit (n + 1)).1

/-- Witness for C6 at the default policy values and a fixed jitter sample. -/
theorem calculateDelay_monotone_bounded_witness :
    0 ≤ calculateDelay 0 1000 30000 ((fun _ => (1:ℚ)/2) 0) none
    ∧ calculateDelay 0 1000 30000 ((fun _ => (1:ℚ)/2) 0) none ≤ 30000
    ∧ calculateDelay 0 1000 30000 ((fun _ => (1:ℚ)/2) 0) none
      ≤ calculateDelay 1 1000 30000 ((fun _ => (1:ℚ)/2) 1) none :=
  calculateDelay_monotone_bounded 1000 30000 (fun _ => (1:ℚ)/2) (by norm_num) (by norm_num)
    (fun _ => by norm_num) 0

instance exceptDecidableEq {ε α : Type} [DecidableEq ε] [DecidableEq α] :
    DecidableEq (Except ε α) := fun a b =>
  match a, b with
  | .ok x, .ok y =>
    if h : x = y then isTrue (congrArg Except.ok h)
    else isFalse (fun hc => h (by injection hc))
  | .error x, .error y =>
    if h : x = y then isTrue (congrArg Except.error h)
    else isFalse (fun hc => h (by injection hc))
  | .ok _, .error _ => isFalse (fun hc => by injection hc)
  | .error _, .ok _ => isFalse (fun hc => by injection hc)

/-- Calls made by the retry loop never exceed `remaining + 1`. -/
theorem withRetryGo_calls_le {α : Type} (fn : Nat → Except SlackError α)
    (b m : ℚ) (j : Nat → ℚ) :
    ∀ (remaining attempt : Nat),
      (withRetryGo fn b m j attempt remaining).calls ≤ remaining + 1 := by
  intro remaining
  induction remaining with
  | zero =>
    intro attempt
    unfold withRetryGo
    cases fn attempt <;> simp
  | succ r ih =>
    intro attempt
    unfold withRetryGo
    cases fn attempt with
    | ok v => simp
    | error e =>
      by_cases ht : isTransientError e
      · have := ih (attempt + 1)
        simp only [ht, if_true]
        simpa using Nat.add_le_add_right this 1
      · simp [ht]

/-- Claim C5: `withRetry` invokes the operation at most `maxRetries + 1`
times; and when the first failure is fatal (not transient), the operation is
invoked exactly once, no backoff sleep occurs and no observer call is made,
and that error is propagated immediately. -/
theorem withRetry_call_bound_and_fatal {α : Type} (fn : Nat → Except SlackError α)
    (maxRetries : Nat) (baseDelay maxDelay : ℚ) (jitter : Nat → ℚ) :
    (withRetry fn maxRetries baseDelay maxDelay jitter).calls ≤ maxRetries + 1
    ∧ (∀ e, fn 0 = .error e → isTransientError e = false →
        withRetry fn maxRetries baseDelay maxDelay jitter
          = ⟨1, [], [], .error e⟩) := by
  constructor
  · exact withRetryGo_calls_le fn baseDelay maxDelay jitter maxRetries 0
  · intro e h0 hfatal
    unfold withRetry withRetryGo
    rw [h0]
    cases maxRetries with
    | zero => rfl
    | succ r => simp [hfatal]

/-- Witness for C5 with an always-fatal HTTP 400 error and `maxRetries = 3`. -/
theorem withRetry_call_bound_and_fatal_witness :
    (withRetry (fun _ => (.error ⟨none, some 400, none, none, none⟩ : Except SlackError Nat))
        3 1000 30000 (fun _ => 0)).calls ≤ 3 + 1
    ∧ withRetry (fun _ => (.error ⟨none, some 400, none, none, none⟩ : Except SlackError Nat))
        3 1000 30000 (fun _ => 0)
      = ⟨1, [], [], .error ⟨none, some 400, none, none, none⟩⟩ := by
  have h := withRetry_call_bound_and_fatal
    (fun _ => (.error ⟨none, some 400, none, none, none⟩ : Except SlackError Nat))
    3 1000 30000 (fun _ => 0)
  exact ⟨h.1, h.2 ⟨none, some 400, none, none, none⟩ rfl (by decide)⟩

/-- The `(attemptNumber, delay, error)` triples the retry loop reports when
retries begin at call index `a` and run for `k` transient failures. -/
def retryObs (es : Nat → SlackError) (b m : ℚ) (j : Nat → ℚ) :
    Nat → Nat → List (Nat × ℚ × SlackError)
  | _, 0 => []
  | a, k + 1 =>
    (a + 1, calculateDelay a b m (j a) (retryAfterMsOf (es a)), es a) ::
      retryObs es b m j (a + 1) k

theorem retryObs_length (es : Nat → SlackError) (b m : ℚ) (j : Nat → ℚ) :
    ∀ (k a : Nat), (retryObs es b m j a k).length = k := by
  intro k
  induction k with
  | zero => intro a; rfl
  | succ n ih => intro a; simp [retryObs, ih (a + 1)]

theorem retryObs_get (es : Nat → SlackError) (b m : ℚ) (j : Nat → ℚ) :
    ∀ (k a i : Nat) (h : i < (retryObs es b m j a k).length),
      (retryObs es b m j a k).get ⟨i, h⟩
        = (a + i + 1, calculateDelay (a + i) b m (j (a + i)) (retryAfterMsOf (es (a + i))),
            es (a + i)) := by
  intro k
  induction k with
  | zero =>
    intro a i h
    simp [retryObs] at h
  | succ n ih =>
    intro a i h
    cases i with
    | zero => simp [retryObs]
    | succ i' =>
      have hlen := retryObs_length es b m j (n + 1) a
      have hlen' := retryObs_length es b m j n (a + 1)
      have h' : i' < (retryObs es b m j (a + 1) n).length := by
        rw [hlen']
        rw [hlen] at h
        omega
      have := ih (a + 1) i' h'
      simp only [retryObs, List.get_cons_succ]
      have hidx : a + (i' + 1) = a + 1 + i' := by omega
      rw [hidx]
      exact this

/-- Exact trace of the retry loop over `k` transient failures followed by a
success, starting at call index `a` with `r ≥ k` retries remaining. -/
theorem withRetryGo_spec {α : Type} (fn : Nat → Except SlackError α)
    (es : Nat → SlackError) (v : α) (b m : ℚ) (j : Nat → ℚ) :
    ∀ (k a r : Nat), k ≤ r →
      (∀ i, i < k → fn (a + i) = .error (es (a + i))
        ∧ isTransientError (es (a + i)) = true) →
      fn (a + k) = .ok v →
      withRetryGo fn b m j a r
        = ⟨k + 1, retryObs es b m j a k,
            (retryObs es b m j a k).map (fun o => o.2.1), .ok v⟩ := by
  intro k
  induction k with
  | zero =>
    intro a r _ _ hok
    unfold withRetryGo
    rw [show a + 0 = a from rfl] at hok
    rw [hok]
    simp [retryObs]
  | succ n ih =>
    intro a r hkr hfail hok
    cases r with
    | zero => omega
    | succ r' =>
      have h0 := hfail 0 (by omega)
      rw [show a + 0 = a from rfl] at h0
      unfold withRetryGo
      rw [h0.1]
      simp only [h0.2, if_true]
      have hfail' : ∀ i, i < n → fn (a + 1 + i) = .error (es (a + 1 + i))
          ∧ isTransientError (es (a + 1 + i)) = true := by
        intro i hi
        have := hfail (i + 1) (by omega)
        rwa [show a + (i + 1) = a + 1 + i by omega] at this
      have hok' : fn (a + 1 + n) = .ok v := by
        rwa [show a + (n + 1) = a + 1 + n by omega] at hok
      rw [ih (a + 1) r' (by omega) hfail' hok']
      simp [retryObs]

/-- Amended C4: the observer is invoked exactly once before each of the `k`
retry sleeps, but attempt numbering is 1-based — the `n`-th retry reports
`attemptNumber = n` (the loop passes `attempt + 1`), so the first retry
reports 1, not 0.  The reported delay is the one computed for the failed
attempt and the sleeps are exactly the reported delays. -/
theorem observer_one_based_attempts {α : Type} (fn : Nat → Except SlackError α)
    (es : Nat → SlackError) (v : α) (maxRetries : Nat) (b m : ℚ) (j : Nat → ℚ)
    (k : Nat) (hk : k ≤ maxRetries)
    (hfail : ∀ i, i < k → fn i = .error (es i) ∧ isTransientError (es i) = true)
    (hok : fn k = .ok v) :
    (withRetry fn maxRetries b m j).calls = k + 1
    ∧ (withRetry fn maxRetries b m j).observed.length = k
    ∧ (∀ i (h : i < (withRetry fn maxRetries b m j).observed.length),
        (withRetry fn maxRetries b m j).observed.get ⟨i, h⟩
          = (i + 1, calculateDelay i b m (j i) (retryAfterMsOf (es i)), es i))
    ∧ (withRetry fn maxRetries b m j).sleeps
      = (withRetry fn maxRetries b m j).observed.map (fun o => o.2.1) := by
  have hfail0 : ∀ i, i < k → fn (0 + i) = .error (es (0 + i))
      ∧ isTransientError (es (0 + i)) = true := by
    intro i hi
    simpa using hfail i hi
  have hok0 : fn (0 + k) = .ok v := by simpa using hok
  have hspec := withRetryGo_spec fn es v b m j k 0 maxRetries hk hfail0 hok0
  unfold withRetry
  rw [hspec]
  refine ⟨rfl, retryObs_length es b m j k 0, ?_, rfl⟩
  intro i h
  have := retryObs_get es b m j k 0 i h
  simpa using this

/-- Witness for the amended C4: two rate-limited failures carrying a 2-second
retry-after hint, then success, with `maxRetries = 3`. -/
theorem observer_one_based_attempts_witness :
    (withRetry
        (fun i => if i < 2
          then .error ⟨some "slack_webapi_rate_limited_error", none, none, some 2, none⟩
          else .ok 7)
        3 1000 30000 (fun _ => 0)).calls = 2 + 1
    ∧ (withRetry
        (fun i => if i < 2
          then .error ⟨some "slack_webapi_rate_limited_error", none, none, some 2, none⟩
          else .ok 7)
        3 1000 30000 (fun _ => 0)).observed.length = 2
    ∧ (∀ i (h : i < (withRetry
        (fun i => if i < 2
          then .error ⟨some "slack_webapi_rate_limited_error", none, none, some 2, none⟩
          else .ok 7)
        3 1000 30000 (fun _ => 0)).observed.length),
        (withRetry
          (fun i => if i < 2
            then .error ⟨some "slack_webapi_rate_limited_error", none, none, some 2, none⟩
            else .ok 7)
          3 1000 30000 (fun _ => 0)).observed.get ⟨i, h⟩
          = (i + 1,
              calculateDelay i 1000 30000 ((fun _ => (0:ℚ)) i)
                (retryAfterMsOf
                  ((fun _ => ⟨some "slack_webapi_rate_limited_error", none, none, some 2, none⟩ :
                      Nat → SlackError) i)),
              (fun _ => ⟨some "slack_webapi_rate_limited_error", none, none, some 2, none⟩ :
                  Nat → SlackError) i))
    ∧ (withRetry
        (fun i => if i < 2
          then .error ⟨some "slack_webapi_rate_limited_error", none, none, some 2, none⟩
          else .ok 7)
        3 1000 30000 (fun _ => 0)).sleeps
      = (withRetry
          (fun i => if i < 2
            then .error ⟨some "slack_webapi_rate_limited_error", none, none, some 2, none⟩
            else .ok 7)
          3 1000 30000 (fun _ => 0)).observed.map (fun o => o.2.1) :=
  observer_one_based_attempts
    (fun i => if i < 2
      then .error ⟨some "slack_webapi_rate_limited_error", none, none, some 2, none⟩
      else .ok 7)
    (fun _ => ⟨some "slack_webapi_rate_limited_error", none, none, some 2, none⟩)
    7 3 1000 30000 (fun _ => 0) 2 (by decide) (by decide) (by decide)

/-- Counterexample to C4 as stated: an operation that fails transiently once
and then succeeds triggers exactly one observer call, and the attempt number
it reports is 1, not the claimed 0. -/
theorem observer_attempt_number_counterexample :
    ((withRetry
        (fun i => if i = 0 then .error ⟨some "ECONNRESET", none, none, none, none⟩
          else .ok 42)
        3 1000 30000 (fun _ => 0)).observed.map Prod.fst = [1])
    ∧ ¬ ((withRetry
        (fun i => if i = 0 then .error ⟨some "ECONNRESET", none, none, none, none⟩
          else .ok 42)
        3 1000 30000 (fun _ => 0)).observed.map Prod.fst = [0]) := by
  constructor
  · rfl
  · decide

/-- `stopTyping` preserves well-formedness, keeps the fresh counter, removes
the key, kills the removed session's timer, and creates no timers. -/
theorem stopTyping_spec (key : List Char) (w : TypingWorld) (hwf : TypingWF w) :
    TypingWF (stopTyping key w)
    ∧ (stopTyping key w).nextTimer = w.nextTimer
    ∧ (stopTyping key w).indicators key = none
    ∧ (∀ st t, w.indicators key = some st → st.interval = some t →
        t ∉ (stopTyping key w).liveTimers)
    ∧ (∀ t, t ∈ (stopTyping key w).liveTimers → t ∈ w.liveTimers)
    ∧ (∀ k, k ≠ key → (stopTyping key w).indicators k = w.indicators k) := by
  obtain ⟨hnd, hbound, hown, hinj⟩ := hwf
  cases hk : w.indicators key with
  | none =>
    have hid : stopTyping key w = w := by simp [stopTyping, hk]
    rw [hid]
    refine ⟨⟨hnd, hbound, hown, hinj⟩, rfl, hk, ?_, fun t ht => ht, fun k _ => rfl⟩
    intro st t hst _
    exact Option.noConfusion hst
  | some st0 =>
    obtain ⟨t0, ht0, ht0mem, ht0b⟩ := hown key st0 hk
    have hlive : (stopTyping key w).liveTimers = w.liveTimers.erase t0 := by
      simp [stopTyping, hk, ht0]
    have hind : (stopTyping key w).indicators
        = fun k => if k = key then none else w.indicators k := by
      simp [stopTyping, hk, ht0]
    have hnext : (stopTyping key w).nextTimer = w.nextTimer := by
      simp [stopTyping, hk, ht0]
    refine ⟨⟨?_, ?_, ?_, ?_⟩, hnext, by rw [hind]; simp, ?_, ?_, ?_⟩
    · rw [hlive]
      exact hnd.erase t0
    · intro t ht
      rw [hlive] at ht
      rw [hnext]
      exact hbound t (List.mem_of_mem_erase ht)
    · intro k st hkst
      rw [hind] at hkst
      by_cases hkk : k = key
      · simp [hkk] at hkst
      · simp only [if_neg hkk] at hkst
        obtain ⟨t, hti, htm, htb⟩ := hown k st hkst
        refine ⟨t, hti, ?_, by rw [hnext]; exact htb⟩
        rw [hlive]
        refine (hnd.mem_erase_iff).2 ⟨?_, htm⟩
        intro hteq
        exact hkk (hinj k key st st0 t hkst hk hti (hteq ▸ ht0))
    · intro k1 k2 s1 s2 t h1 h2 hi1 hi2
      rw [hind] at h1 h2
      by_cases hk1 : k1 = key
      · simp [hk1] at h1
      · by_cases hk2 : k2 = key
        · simp [hk2] at h2
        · simp only [if_neg hk1] at h1
          simp only [if_neg hk2] at h2
          exact hinj k1 k2 s1 s2 t h1 h2 hi1 hi2
    · intro st t hst hti
      have hst' : st0 = st := Option.some.inj hst
      subst hst'
      rw [ht0] at hti
      have hti' : t0 = t := Option.some.inj hti
      subst hti'
      rw [hlive]
      intro hmem
      exact absurd ((hnd.mem_erase_iff).1 hmem).1 (by simp)
    · intro t ht
      rw [hlive] at ht
      exact List.mem_of_mem_erase ht
    · intro k hk'
      rw [hind]
      simp [hk']

/-- Claim C9: `startTyping` on a key that already has an active session first
tears the old one down: the result is well-formed, the old session's refresh
timer is no longer live, the new session for the key owns a live timer, and
at most one live timer is ever associated with the key. -/
theorem startTyping_single_timer_per_key (w : TypingWorld)
    (key ch ts : List Char) (now : Nat) (hwf : TypingWF w) :
    TypingWF (startTyping key ch ts now w)
    ∧ (∀ st t, w.indicators key = some st → st.interval = some t →
        t ∉ (startTyping key ch ts now w).liveTimers)
    ∧ (∃ st t, (startTyping key ch ts now w).indicators key = some st
        ∧ st.interval = some t ∧ t ∈ (startTyping key ch ts now w).liveTimers)
    ∧ (∀ t1 t2 st1 st2,
        (startTyping key ch ts now w).indicators key = some st1 → st1.interval = some t1 →
        (startTyping key ch ts now w).indicators key = some st2 → st2.interval = some t2 →
        t1 = t2) := by
  obtain ⟨hwf1, hnext, hkey, hkill, hsub, hother⟩ := stopTyping_spec key w hwf
  obtain ⟨hnd1, hbound1, hown1, hinj1⟩ := hwf1
  have hfresh : w.nextTimer ∉ (stopTyping key w).liveTimers := by
    intro hmem
    have h1 := hbound1 _ hmem
    rw [hnext] at h1
    omega
  have hind : (startTyping key ch ts now w).indicators
      = fun k => if k = key
          then some ⟨ch, ts, some (stopTyping key w).nextTimer, now, true, 0⟩
          else (stopTyping key w).indicators k := rfl
  have hlive : (startTyping key ch ts now w).liveTimers
      = (stopTyping key w).nextTimer :: (stopTyping key w).liveTimers := rfl
  have hnt : (startTyping key ch ts now w).nextTimer
      = (stopTyping key w).nextTimer + 1 := rfl
  refine ⟨⟨?_, ?_, ?_, ?_⟩, ?_, ?_, ?_⟩
  · rw [hlive]
    exact List.Nodup.cons (by rw [hnext]; exact hfresh) hnd1
  · intro t ht
    rw [hlive] at ht
    rw [hnt]
    rcases List.mem_cons.1 ht with h | h
    · omega
    · have := hbound1 t h
      omega
  · intro k st hkst
    rw [hind] at hkst
    by_cases hkk : k = key
    · simp only [hkk, if_pos] at hkst
      injection hkst with hkst'
      subst hkst'
      refine ⟨(stopTyping key w).nextTimer, rfl, ?_, ?_⟩
      · rw [hlive]
        exact List.mem_cons_self _ _
      · rw [hnt]
        omega
    · simp only [if_neg hkk] at hkst
      obtain ⟨t, hti, htm, htb⟩ := hown1 k st hkst
      refine ⟨t, hti, ?_, ?_⟩
      · rw [hlive]
        exact List.mem_cons_of_mem _ htm
      · rw [hnt]
        omega
  · intro k1 k2 s1 s2 t h1 h2 hi1 hi2
    rw [hind] at h1 h2
    by_cases hk1 : k1 = key <;> by_cases hk2 : k2 = key
    · rw [hk1, hk2]
    · simp only [hk1, if_pos] at h1
      simp only [if_neg hk2] at h2
      injection h1 with h1'
      subst h1'
      have hteq : (stopTyping key w).nextTimer = t := by simpa using hi1
      obtain ⟨t', hti', htm', htb'⟩ := hown1 k2 s2 h2
      rw [hi2] at hti'
      injection hti' with hti''
      subst hti''
      omega
    · simp only [hk2, if_pos] at h2
      simp only [if_neg hk1] at h1
      injection h2 with h2'
      subst h2'
      have hteq : (stopTyping key w).nextTimer = t := by simpa using hi2
      obtain ⟨t', hti', htm', htb'⟩ := hown1 k1 s1 h1
      rw [hi1] at hti'
      injection hti' with hti''
      subst hti''
      omega
    · simp only [if_neg hk1] at h1
      simp only [if_neg hk2] at h2
      exact hinj1 k1 k2 s1 s2 t h1 h2 hi1 hi2
  · intro st t hst hti
    rw [hlive]
    intro hmem
    rcases List.mem_cons.1 hmem with h | h
    · obtain ⟨t0, ht0, ht0m, ht0b⟩ := hwf.2.2.1 key st hst
      rw [hti] at ht0
      injection ht0 with ht0'
      subst ht0'
      rw [hnext] at h
      omega
    · exact hkill st t hst hti h
  · refine ⟨⟨ch, ts, some (stopTyping key w).nextTimer, now, true, 0⟩,
      (stopTyping key w).nextTimer, ?_, rfl, ?_⟩
    · rw [hind]
      simp
    · rw [hlive]
      exact List.mem_cons_self _ _
  · intro t1 t2 st1 st2 h1 hi1 h2 hi2
    rw [h1] at h2
    have h2' : st1 = st2 := Option.some.inj h2
    subst h2'
    rw [hi1] at hi2
    exact Option.some.inj hi2

/-- Witness for C9: starting twice for the same key on the initially empty
registry; the second start kills the first session's timer. -/
theorem startTyping_single_timer_per_key_witness :
    TypingWF (startTyping ['k'] ['C'] ['t'] 5 (startTyping ['k'] ['C'] ['t'] 0 emptyTypingWorld))
    ∧ (∀ st t, (startTyping ['k'] ['C'] ['t'] 0 emptyTypingWorld).indicators ['k'] = some st →
        st.interval = some t →
        t ∉ (startTyping ['k'] ['C'] ['t'] 5
              (startTyping ['k'] ['C'] ['t'] 0 emptyTypingWorld)).liveTimers)
    ∧ (∃ st t, (startTyping ['k'] ['C'] ['t'] 5
          (startTyping ['k'] ['C'] ['t'] 0 emptyTypingWorld)).indicators ['k'] = some st
        ∧ st.interval = some t
        ∧ t ∈ (startTyping ['k'] ['C'] ['t'] 5
              (startTyping ['k'] ['C'] ['t'] 0 emptyTypingWorld)).liveTimers)
    ∧ (∀ t1 t2 st1 st2,
        (startTyping ['k'] ['C'] ['t'] 5
          (startTyping ['k'] ['C'] ['t'] 0 emptyTypingWorld)).indicators ['k'] = some st1 →
        st1.interval = some t1 →
        (startTyping ['k'] ['C'] ['t'] 5
          (startTyping ['k'] ['C'] ['t'] 0 emptyTypingWorld)).indicators ['k'] = some st2 →
        st2.interval = some t2 →
        t1 = t2) := by
  have hwf0 : TypingWF emptyTypingWorld := by
    refine ⟨List.nodup_nil, ?_, ?_, ?_⟩
    · intro t ht
      exact absurd ht (List.not_mem_nil t)
    · intro k st h
      exact Option.noConfusion h
    · intro k1 k2 s1 s2 t h1 _ _ _
      exact Option.noConfusion h1
  have h1 := startTyping_single_timer_per_key emptyTypingWorld ['k'] ['C'] ['t'] 0 hwf0
  exact startTyping_single_timer_per_key
    (startTyping ['k'] ['C'] ['t'] 0 emptyTypingWorld) ['k'] ['C'] ['t'] 5 h1.1

/-!  ## Stream session end-to-end properties -/

/-- The truncation of any text satisfies the claimed final-text shape. -/
theorem FinalTextOk_truncate (X : List Char) : FinalTextOk (truncateForSlack X) X := by
  by_cases h : SLACK_LIMIT < X.length
  · right
    refine ⟨X.take (SLACK_LIMIT - 3), X.drop (SLACK_LIMIT - 3),
      List.take_append_drop _ _, by simp [truncateForSlack, h], ?_⟩
    have h4 : 4000 < X.length := by simpa [SLACK_LIMIT] using h
    have htake : (X.take (SLACK_LIMIT - 3)).length = 3997 := by
      simp only [List.length_take, SLACK_LIMIT]
      omega
    simp only [truncateForSlack, if_pos h, List.length_append, htake]
    decide
  · left
    simp [truncateForSlack, h]

/-- The last pushed text of a log closed by a finalize edit. -/
theorem editsLast_concat (es : List (EditKind × List Char)) (txt : List Char) :
    ((es ++ [(EditKind.final, txt)]).map Prod.snd).getLast? = some txt := by
  rw [List.map_append]
  exact List.getLast?_concat _

/-- As long as consecutive chunks (all with non-empty extracted text) arrive
within the idle gap, the chunk loop never clears the buffer: it accumulates
the full concatenation, the session stays unfinalized, and the timer stays
armed at the last arrival. -/
theorem runChunks_no_split :
    ∀ (chunks : List (StreamMessage × Nat)) (r : ChunkRun) (prev : Nat),
      r.st.isFinalized = false →
      r.lastFlush = prev →
      (r.timerSetAt = none ∨ r.timerSetAt = some prev) →
      (∀ c ∈ chunks, extractText c.1 ≠ []) →
      gapsOk prev (chunks.map Prod.snd) = true →
      (runChunks r chunks).st.isFinalized = false
      ∧ (runChunks r chunks).buffer = r.buffer ++ concatExtract chunks := by
  intro chunks
  induction chunks with
  | nil =>
    intro r prev h1 _ _ _ _
    exact ⟨h1, by simp [runChunks, concatExtract]⟩
  | cons c rest ih =>
    intro r prev hfin hlf htimer hext hgaps
    obtain ⟨msg, t⟩ := c
    have hgaps' : (prev ≤ t ∧ t - prev ≤ IDLE_SPLIT_MS)
        ∧ gapsOk t (rest.map Prod.snd) = true := by
      simpa [gapsOk, Bool.and_eq_true, decide_eq_true_eq, and_assoc] using hgaps
    have hfire : fireTimerIfDue r t = r := by
      rcases htimer with h | h
      · simp [fireTimerIfDue, h]
      · have hnd : ¬ (prev + FINALIZE_DEBOUNCE_MS < t) := by
          have := hgaps'.1.1
          have := hgaps'.1.2
          simp only [FINALIZE_DEBOUNCE_MS]
          simp only [IDLE_SPLIT_MS] at this
          omega
        simp [fireTimerIfDue, h, hnd]
    have hext0 : extractText msg ≠ [] := hext (msg, t) (List.mem_cons_self _ _)
    have hidle : ¬ (IDLE_SPLIT_MS < t - r.lastFlush) := by
      rw [hlf]
      intro hlt
      have := hgaps'.1.2
      omega
    have hkey : (handleChunk r msg t).st.isFinalized = false
        ∧ (handleChunk r msg t).buffer = r.buffer ++ extractText msg
        ∧ (handleChunk r msg t).lastFlush = t
        ∧ (handleChunk r msg t).timerSetAt = some t := by
      simp [handleChunk, hfin, hext0, hidle, updateMessage, recordEdit]
      split <;> simp [hfin]
    obtain ⟨hf2, hb2, hlf2, ht2⟩ := hkey
    have hrun : runChunks r ((msg, t) :: rest) = runChunks (handleChunk r msg t) rest := by
      simp [runChunks, processChunk, hfire]
    obtain ⟨ihf, ihb⟩ := ih (handleChunk r msg t) t hf2 hlf2 (Or.inr ht2)
      (fun c hc => hext c (List.mem_cons_of_mem _ hc)) hgaps'.2
    refine ⟨by rw [hrun]; exact ihf, ?_⟩
    rw [hrun, ihb, hb2]
    simp [concatExtract]

/-- Amended C1: as long as at least one chunk carries non-empty extracted
text, all extracted texts are non-empty, and every inter-arrival gap (from
session start) stays within `IDLE_SPLIT_MS`, the final visible text is
exactly the truncation of the full concatenation of the extracted texts, and
that text is the full concatenation or a truncated-with-ellipsis initial
segment of it within the platform cap.  (When an idle gap occurs the local
buffer is cleared by the flush and the final edit carries only the text after
the last idle split — see the counterexample.) -/
theorem final_text_no_idle_split (chunks : List (StreamMessage × Nat))
    (t0 tEnd : Nat) (resp : List Char)
    (hne : chunks ≠ [])
    (hext : ∀ c ∈ chunks, extractText c.1 ≠ [])
    (hgaps : gapsOk t0 (chunks.map Prod.snd) = true) :
    ((completeRun (runChunks (initialRun t0) chunks) resp tEnd).edits.map Prod.snd).getLast?
      = some (truncateForSlack (concatExtract chunks))
    ∧ FinalTextOk (truncateForSlack (concatExtract chunks)) (concatExtract chunks) := by
  obtain ⟨hf, hb⟩ := runChunks_no_split chunks (initialRun t0) t0 rfl rfl (Or.inl rfl)
    hext hgaps
  rw [show (initialRun t0).buffer = [] from rfl, List.nil_append] at hb
  have hcne : concatExtract chunks ≠ [] := by
    cases chunks with
    | nil => exact absurd rfl hne
    | cons c rest =>
      have h1 := hext c (List.mem_cons_self c rest)
      intro hcontra
      rw [concatExtract, List.map_cons, List.flatten_cons] at hcontra
      exact h1 (List.append_eq_nil.1 hcontra).1
  refine ⟨?_, FinalTextOk_truncate _⟩
  have hlen : 0 < (concatExtract chunks).length := List.length_pos.2 hcne
  cases hts : (runChunks (initialRun t0) chunks).timerSetAt with
  | none =>
    have hE : (completeRun (runChunks (initialRun t0) chunks) resp tEnd).edits
        = (runChunks (initialRun t0) chunks).edits
          ++ [(EditKind.final, truncateForSlack (concatExtract chunks))] := by
      simp [completeRun, fireTimerIfDue, hts, hf, hb, hcne, finalizeMessage, recordEdit]
    rw [hE]
    exact editsLast_concat _ _
  | some tp =>
    by_cases hdue : tp + FINALIZE_DEBOUNCE_MS < tEnd
    · have hE : (completeRun (runChunks (initialRun t0) chunks) resp tEnd).edits
          = (runChunks (initialRun t0) chunks).edits
            ++ [(EditKind.final, truncateForSlack (concatExtract chunks))] := by
        simp [completeRun, fireTimerIfDue, hts, hdue, hf, hb, hcne, hlen,
          finalizeMessage, recordEdit]
      rw [hE]
      exact editsLast_concat _ _
    · have hE : (completeRun (runChunks (initialRun t0) chunks) resp tEnd).edits
          = (runChunks (initialRun t0) chunks).edits
            ++ [(EditKind.final, truncateForSlack (concatExtract chunks))] := by
        simp [completeRun, fireTimerIfDue, hts, hdue, hf, hb, hcne, finalizeMessage,
          recordEdit]
      rw [hE]
      exact editsLast_concat _ _

/-- Witness for the amended C1: a single chunk within the idle gap; the
finalize edit carries the full (truncated) concatenation. -/
theorem final_text_no_idle_split_witness :
    ((completeRun (runChunks (initialRun 0)
        [(StreamMessage.text (some ['H', 'i']), 100)]) [] 200).edits.map Prod.snd).getLast?
      = some (truncateForSlack (concatExtract [(StreamMessage.text (some ['H', 'i']), 100)]))
    ∧ FinalTextOk
        (truncateForSlack (concatExtract [(StreamMessage.text (some ['H', 'i']), 100)]))
        (concatExtract [(StreamMessage.text (some ['H', 'i']), 100)]) :=
  final_text_no_idle_split [(StreamMessage.text (some ['H', 'i']), 100)] 0 200 []
    (by decide) (by decide) (by decide)

/-- Counterexample to C1 as stated: chunks `A`, `B`, `C` where `B` arrives
after an idle gap.  The idle-split flush pushes `AB` and clears the local
buffer, so the finalize edit — the last edit of the session — carries only
`C`, which is neither the full concatenation `ABC` nor a
truncated-with-ellipsis initial segment of it. -/
theorem final_text_idle_split_counterexample :
    concatExtract [(StreamMessage.text (some ['A']), 100),
        (StreamMessage.text (some ['B']), 1200),
        (StreamMessage.text (some ['C']), 1300)] = ['A', 'B', 'C']
    ∧ ((completeRun (runChunks (initialRun 0)
          [(StreamMessage.text (some ['A']), 100),
           (StreamMessage.text (some ['B']), 1200),
           (StreamMessage.text (some ['C']), 1300)]) ['A', 'B', 'C'] 1400).edits.map
        Prod.snd).getLast? = some ['C']
    ∧ ¬ FinalTextOk ['C'] ['A', 'B', 'C'] := by
  refine ⟨by decide, by decide, ?_⟩
  rintro (h | ⟨p, rest, hpr, he, hlen⟩)
  · exact absurd h (by decide)
  · have hl := congrArg List.length he
    simp only [List.length_append, ellipsis] at hl
    simp at hl

/-- Amended C3: the delete-instead-of-finalize path is keyed on empty
*incoming* message content, not on empty producer output.  When the incoming
content trims to empty, the placeholder is deleted, no edit is issued, and
the typing session is left running (no `stopTyping` on that path).  When the
incoming content is non-empty and the producer yields no chunks, the typing
session is stopped and the session is finalized with the producer's returned
response — a finalize edit with empty text when that response is empty — and
the placeholder is not deleted. -/
theorem empty_input_delete_empty_output_finalize (mc : List Char)
    (chunks : List (StreamMessage × Nat)) (resp : List Char) (t0 t1 : Nat) :
    (jsTrimEmpty mc = true →
      handleMessageRun mc chunks resp t0 t1 = ⟨initialRun t0, true⟩)
    ∧ (jsTrimEmpty mc = false → chunks = [] →
        (handleMessageRun mc chunks resp t0 t1).deleted = false
        ∧ (handleMessageRun mc chunks resp t0 t1).run.typingStopped = true
        ∧ (handleMessageRun mc chunks resp t0 t1).run.edits
          = [(EditKind.final, truncateForSlack resp)]
        ∧ (handleMessageRun mc chunks resp t0 t1).run.st.isFinalized = true) := by
  constructor
  · intro h
    simp [handleMessageRun, h]
  · intro h hch
    subst hch
    simp [handleMessageRun, h, completeRun, fireTimerIfDue, runChunks, initialRun,
      initialStreamState, finalizeMessage, recordEdit]

/-- Witness for the amended C3: a whitespace-only incoming message is deleted
without edits; a non-empty message with an empty producer output is finalized
with the (empty) response and not deleted. -/
theorem empty_paths_witness :
    handleMessageRun [' '] [] ['x'] 3 9 = ⟨initialRun 3, true⟩
    ∧ ((handleMessageRun ['h'] [] ['x'] 3 9).deleted = false
        ∧ (handleMessageRun ['h'] [] ['x'] 3 9).run.typingStopped = true
        ∧ (handleMessageRun ['h'] [] ['x'] 3 9).run.edits
          = [(EditKind.final, truncateForSlack ['x'])]
        ∧ (handleMessageRun ['h'] [] ['x'] 3 9).run.st.isFinalized = true) :=
  ⟨(empty_input_delete_empty_output_finalize [' '] [] ['x'] 3 9).1 (by decide),
   (empty_input_delete_empty_output_finalize ['h'] [] ['x'] 3 9).2 (by decide) rfl⟩

/-- Counterexample to C3 as stated: a non-empty incoming message whose
producer yields no chunks and returns an empty response.  The placeholder is
not deleted, and a finalize edit carrying empty text is issued. -/
theorem empty_output_finalized_counterexample :
    (handleMessageRun ['h', 'i'] [] [] 0 0).deleted = false
    ∧ (handleMessageRun ['h', 'i'] [] [] 0 0).run.edits = [(EditKind.final, [])] := by
  decide

end WoprSlack
